import Mathlib

/-!
Verification of `fermipy/diffuse/gt_srcmaps_catalog.py`.

The file embeds the two pieces of that module:

* `GtSrcmapsCatalog.run_analysis` — the per-job worker that iterates over a
  half-open index range of catalog sources, adding each source to the
  likelihood context, serializing its partial source map, and deleting it
  again, with the output artifact created on the first loop iteration and an
  optional terminal gzip step; modelled as an event trace.

* `SrcmapsCatalog_SG.build_job_configs` — the scatter-gather configuration
  generator that chunks each catalog into `ceil(N / nsrc)` jobs and fills a
  dictionary of job configurations keyed by `"%s_%02i" % (comp_key, i_job)`.

External collaborators that the module calls but whose code is not part of
the repository snapshot under `src/` (the `NameFactory` path policy from
`name_policy.py`, `Component.make_key` from `binning.py`,
`make_catalog_comp_dict`, `make_nfs_path`) are modelled from the spec, as
deterministic string-valued functions; each such definition is marked
`Modelled from the spec:` in its doc comment.
-/

namespace GtSrcmapsCatalog

/-- Observable events of one worker run of `GtSrcmapsCatalog.run_analysis`.
`saveMaps` is the call `like.logLike.saveSourceMaps(args.outfile)` that
creates the output artifact, `copyKeywords` is
`pyLike.CountsMapBase.copyAndUpdateDssKeywords` (header/metadata copy),
`add i` is `like.logLike.addSource` for source index `i`, `serialize i` is
`like.logLike.saveSourceMap_partial`, `remove i` is
`like.logLike.deleteSource`, and `gzipOut` is the terminal
`os.system("gzip -9 %s" % args.outfile)`. -/
inductive Event where
  | saveMaps : Event
  | copyKeywords : Event
  | add : Nat → Event
  | serialize : Nat → Event
  | remove : Nat → Event
  | gzipOut : Event
deriving DecidableEq, Repr

/-- The loop bound of the worker: `max_idx = args.srcmax`, replaced by
`srcNames.size()` when negative (the source lines
`max_idx = args.srcmax; if max_idx < 0: max_idx = srcNames.size()`). -/
def effMaxIdx (srcmax : Int) (nSrcNames : Nat) : Int :=
  if srcmax < 0 then (nSrcNames : Int) else srcmax

/-- The indices visited by `for i in xrange(min_idx, max_idx)`: the integers
from `minIdx` (inclusive) up to `maxIdx` (exclusive); empty when
`maxIdx ≤ minIdx`. -/
def loopIndices (minIdx : Nat) (maxIdx : Int) : List Nat :=
  List.range' minIdx (maxIdx.toNat - minIdx)

/-- The events of one loop iteration of the worker: on the first index
(`if i == min_idx`) the artifact is created and its keywords copied, then the
source is added, its map serialized, and the source deleted. -/
def entityEvents (minIdx i : Nat) : List Event :=
  (if i = minIdx then [Event.saveMaps, Event.copyKeywords] else []) ++
    [Event.add i, Event.serialize i, Event.remove i]

/-- The event trace of the worker's entity loop over `[minIdx, maxIdx)`. -/
def loopTrace (minIdx : Nat) (maxIdx : Int) : List Event :=
  (loopIndices minIdx maxIdx).flatMap (entityEvents minIdx)

/-- The full event trace of `run_analysis`: the entity loop with the bound
computed by `effMaxIdx`, followed by the gzip call when `args.gzip` is set. -/
def runAnalysisTrace (srcmin : Nat) (srcmax : Int) (nSrcNames : Nat)
    (gzip : Bool) : List Event :=
  loopTrace srcmin (effMaxIdx srcmax nSrcNames) ++
    (if gzip then [Event.gzipOut] else [])

/-- The set of catalog sources held by the likelihood context, as a list of
indices: `addSource` pushes a source, `deleteSource` erases it; the other
calls leave the context unchanged.  The context starts empty because the
`BinnedAnalysis` is built from the null model `srcmdls/null.xml`. -/
def ctxStep (s : List Nat) (e : Event) : List Nat :=
  match e with
  | Event.add i => i :: s
  | Event.remove i => s.erase i
  | _ => s

/-- Decidable check of the context-occupancy invariant along a trace: before
every event the context holds at most one source, every `add` finds the
context empty, and the context is empty again when the trace ends. -/
def ctxInvB : List Nat → List Event → Bool
  | s, [] => s.isEmpty
  | s, e :: tr =>
    decide (s.length ≤ 1) &&
      (match e with
       | Event.add _ => s.isEmpty
       | _ => true) &&
      ctxInvB (ctxStep s e) tr

/-- Projection of the `add` events of a trace to their source indices. -/
def evtAddIdx : Event → Option Nat
  | Event.add i => some i
  | _ => none

end GtSrcmapsCatalog

namespace SrcmapsCatalogSG

/-- Exact integer ceiling division `⌈a / b⌉` for `b ≠ 0`, the value computed
by `int(math.ceil(float(n_cat_src) / n_src_per_job))` in
`build_job_configs` (the `float` arithmetic is modelled exactly; catalog
sizes are far below the range where IEEE doubles round integers). -/
def pyCeilDiv (a b : Int) : Int :=
  if 0 < b then (a + b - 1) / b else -(a / (-b))

/-- The message of the Python `ZeroDivisionError` raised by
`float(n_cat_src) / n_src_per_job` when `n_src_per_job == 0`. -/
def zeroDivMsg : String := "ZeroDivisionError: float division by zero"

/-- The job count `n_job = int(math.ceil(float(n_cat_src)/n_src_per_job))`;
the division raises `ZeroDivisionError` when `n_src_per_job = 0`. -/
def nJobChecked (nCatSrc : Nat) (nSrcPerJob : Int) : Except String Int :=
  if nSrcPerJob = 0 then Except.error zeroDivMsg
  else Except.ok (pyCeilDiv nCatSrc nSrcPerJob)

/-- The index range of job `iJob`:
`srcmin = i_job * n_src_per_job` and
`srcmax = min(srcmin + n_src_per_job, n_cat_src)`. -/
def srcRange (nCatSrc : Nat) (nSrcPerJob : Int) (iJob : Nat) : Int × Int :=
  ((iJob : Int) * nSrcPerJob,
    min ((iJob : Int) * nSrcPerJob + nSrcPerJob) (nCatSrc : Int))

/-- The list of index ranges produced for one catalog by
`build_job_configs`: ranges `0, …, n_job - 1`, each built by `srcRange`. -/
def jobRangesChecked (nCatSrc : Nat) (nSrcPerJob : Int) :
    Except String (List (Int × Int)) :=
  (nJobChecked nCatSrc nSrcPerJob).map fun nJob =>
    (List.range nJob.toNat).map (srcRange nCatSrc nSrcPerJob)

/-- Closed form of the range list for a positive chunk size `c`, over the
natural numbers: `⌈n / c⌉ = (n + c - 1) / c` ranges, range `i` being
`[i*c, min ((i+1)*c) n)`. -/
def partitionN (n c : Nat) : List (Nat × Nat) :=
  (List.range ((n + c - 1) / c)).map fun i => (i * c, min ((i + 1) * c) n)

/-- One binning component read from the `--comp` yaml file, with the fields
`build_job_configs` uses: `zmax`, `ebin_name`, `evtype_name`, `coordsys`
and `evtype`. -/
structure Component where
  zmax : Nat
  ebin_name : String
  evtype_name : String
  coordsys : String
  evtype : Int
deriving DecidableEq, Repr

/-- One entry of `catalog_info_dict` with the fields `build_job_configs`
uses: the catalog size `len(catalog_info.catalog.table)`, the model file
name `catalog_info.srcmdl_name`, and the source count of its `roi_model`
(used only by `_make_xml_files`). -/
structure CatalogInfo where
  nSrc : Nat
  srcmdl_name : String
  roi_nSources : Nat
deriving DecidableEq, Repr

/-- One entry of the nested `comp_info_dict`, used only by
`_make_xml_files`: its model file name and its `roi_model` source count. -/
structure CompInfo where
  srcmdl_name : String
  roi_nSources : Nat
deriving DecidableEq, Repr

/-- The `name_keys` dictionary built in the component loop of
`build_job_configs`. -/
structure NameKeys where
  zcut : String
  sourcekey : String
  ebin : String
  psftype : String
  coordsys : String
  irf_ver : String
  mktime : String
  fullpath : Bool
deriving DecidableEq, Repr

/-- Modelled from the spec: `NAME_FACTORY.irf_ver()` — part of the
NamingResolver state set by `update_base_dict(args['data'])`; modelled as a
deterministic function of the dataset argument. -/
def irfVer (data : String) : String := data ++ ".irf_ver"

/-- Modelled from the spec: the common stem of the NamingResolver's paths,
a deterministic function of the naming state and of every `name_keys`
field, separated by underscores (`name_policy.py` is not part of the
snapshot under `src/`). -/
def nfBase (data : String) (k : NameKeys) : String :=
  data ++ "/" ++ k.sourcekey ++ "_" ++ k.ebin ++ "_" ++ k.psftype ++ "_" ++
    k.coordsys ++ "_" ++ k.zcut ++ "_" ++ k.mktime ++ "_" ++ k.irf_ver

/-- Modelled from the spec: `NAME_FACTORY.ccube(**name_keys)`. -/
def nfCcube (data : String) (k : NameKeys) : String :=
  "ccube_" ++ nfBase data k ++ ".fits"

/-- Modelled from the spec: `NAME_FACTORY.ltcube(**name_keys)`. -/
def nfLtcube (data : String) (k : NameKeys) : String :=
  "ltcube_" ++ nfBase data k ++ ".fits"

/-- Modelled from the spec: `NAME_FACTORY.irfs(**name_keys)` — the IRF
name string resolved from the naming state. -/
def nfIrfs (data : String) (k : NameKeys) : String :=
  "irfs_" ++ nfBase data k

/-- Modelled from the spec: `NAME_FACTORY.bexpcube(**name_keys)`. -/
def nfBexpcube (data : String) (k : NameKeys) : String :=
  "bexpcube_" ++ nfBase data k ++ ".fits"

/-- The `"%02i" % i` format: at least two digits, zero padded. -/
def fmt02 (i : Nat) : String :=
  if i < 10 then "0" ++ Nat.repr i else Nat.repr i

/-- Modelled from the spec:
`NAME_FACTORY.srcmaps(**name_keys).replace('.fits', "_%02i.fits" % i_job)` —
the modelled srcmaps path ends in its only occurrence of `.fits`, so the
`replace` inserts the two-digit job index just before that terminal
extension. -/
def outfilePath (data : String) (k : NameKeys) (iJob : Nat) : String :=
  "srcmaps_" ++ nfBase data k ++ "_" ++ fmt02 iJob ++ ".fits"

/-- Modelled from the spec:
`make_nfs_path(outfile.replace('.fits', '.log'))` — `make_nfs_path`
(external, `slac_impl.py`) deterministically rewrites a path to its NFS
form, modelled as a prefix. -/
def logfilePath (data : String) (k : NameKeys) (iJob : Nat) : String :=
  "nfs:" ++ ("srcmaps_" ++ nfBase data k ++ "_" ++ fmt02 iJob ++ ".log")

/-- Modelled from the spec:
`comp.make_key('{ebin_name}_{evtype_name}')` (`binning.py` is not part of
the snapshot) — fills the format string with the component's fields. -/
def compKey (c : Component) : String := c.ebin_name ++ "_" ++ c.evtype_name

/-- The dictionary key `full_key = "%s_%02i" % (key, i_job)`.  Note that it
is built from the component key and the job index only: the catalog name is
not part of it. -/
def fullKey (c : Component) (iJob : Nat) : String :=
  compKey c ++ "_" ++ fmt02 iJob

/-- The `zcut = "zmax%i" % comp.zmax` string. -/
def zcutStr (c : Component) : String := "zmax" ++ Nat.repr c.zmax

/-- The `name_keys` dictionary as built in the component loop:
`dict(zcut=zcut, sourcekey=catalog_name, ebin=comp.ebin_name,
psftype=comp.evtype_name, coordsys=comp.coordsys,
irf_ver=NAME_FACTORY.irf_ver(), mktime='none', fullpath=True)`. -/
def nameKeysFor (data catalogName : String) (c : Component) : NameKeys :=
  { zcut := zcutStr c
    sourcekey := catalogName
    ebin := c.ebin_name
    psftype := c.evtype_name
    coordsys := c.coordsys
    irf_ver := irfVer data
    mktime := "none"
    fullpath := true }

/-- One value of the `job_configs` dictionary, with the fields assigned in
`build_job_configs`. -/
structure JobConfig where
  cmap : String
  expcube : String
  irfs : String
  bexpmap : String
  outfile : String
  logfile : String
  srcmdl : String
  evtype : Int
  srcmin : Int
  srcmax : Int
deriving DecidableEq, Repr

/-- The job configuration inserted for catalog `catName` / component `c` /
job index `iJob`. -/
def mkJobConfig (data catName : String) (info : CatalogInfo) (nsrc : Int)
    (c : Component) (iJob : Nat) : JobConfig :=
  let k := nameKeysFor data catName c
  { cmap := nfCcube data k
    expcube := nfLtcube data k
    irfs := nfIrfs data k
    bexpmap := nfBexpcube data k
    outfile := outfilePath data k iJob
    logfile := logfilePath data k iJob
    srcmdl := info.srcmdl_name
    evtype := c.evtype
    srcmin := (iJob : Int) * nsrc
    srcmax := min ((iJob : Int) * nsrc + nsrc) (info.nSrc : Int) }

/-- Assignment `job_configs[full_key] = ...` with Python dictionary
semantics: an existing key keeps its position and gets the new value, a new
key is appended. -/
def dictInsert (k : String) (v : JobConfig) :
    List (String × JobConfig) → List (String × JobConfig)
  | [] => [(k, v)]
  | p :: rest =>
    if p.1 = k then (k, v) :: rest else p :: dictInsert k v rest

/-- The inner two loops of `build_job_configs` for one catalog: for every
component and every job index, insert the job configuration under its
`full_key`. -/
def insertCatalogJobs (data : String) (comps : List Component)
    (catName : String) (info : CatalogInfo) (nsrc : Int) (nJob : Nat)
    (table : List (String × JobConfig)) : List (String × JobConfig) :=
  comps.foldl
    (fun t c =>
      (List.range nJob).foldl
        (fun t2 iJob =>
          dictInsert (fullKey c iJob) (mkJobConfig data catName info nsrc c iJob) t2)
        t)
    table

/-- The catalog loop of `build_job_configs`: for each catalog compute
`n_job` (which can raise `ZeroDivisionError`), then run the component and
job-index loops.  The dictionary starts empty and an exception aborts the
whole generation with no table produced. -/
def buildTable (data : String) (comps : List Component)
    (catalogs : List (String × CatalogInfo)) (nsrc : Int) :
    Except String (List (String × JobConfig)) :=
  catalogs.foldlM
    (fun table p => do
      let nJob ← nJobChecked p.2.nSrc nsrc
      pure (insertCatalogJobs data comps p.1 p.2 nsrc nJob.toNat table))
    []

/-- The file-writing side effects of `_make_xml_files`: for every catalog
and every nested component entry, the pair of the model file written and
its source count. -/
def xmlEffects (catalogs : List (String × CatalogInfo))
    (compInfos : List (String × List CompInfo)) : List (String × Nat) :=
  catalogs.map (fun p => (p.2.srcmdl_name, p.2.roi_nSources)) ++
    compInfos.flatMap fun p => p.2.map fun ci => (ci.srcmdl_name, ci.roi_nSources)

/-- The arguments of `build_job_configs` after the external parsing steps:
the binning components (from `args['comp']`), the naming state (from
`args['data']`), the catalog and component info dictionaries (from
`make_catalog_comp_dict(sources=args['library'], ...)`), the chunk size
`args['nsrc']` and the `args['make_xml']` flag. -/
structure SGArgs where
  comp : List Component
  data : String
  catalogInfos : List (String × CatalogInfo)
  compInfos : List (String × List CompInfo)
  nsrc : Int
  make_xml : Bool
deriving DecidableEq, Repr

/-- The whole of `build_job_configs`: the optional `_make_xml_files` side
effects (first output component) and the job-configuration table (second
output component). -/
def buildJobConfigs (args : SGArgs) :
    Except String (List (String × Nat) × List (String × JobConfig)) := do
  let effects := if args.make_xml then xmlEffects args.catalogInfos args.compInfos else []
  let table ← buildTable args.data args.comp args.catalogInfos args.nsrc
  pure (effects, table)

/-- The expected table contents for one catalog when no key collides: one
entry per (component, job index) pair, in loop order. -/
def catalogEntries (data catName : String) (info : CatalogInfo) (nsrc : Int)
    (nJob : Nat) (comps : List Component) : List (String × JobConfig) :=
  comps.flatMap fun c =>
    (List.range nJob).map fun i =>
      (fullKey c i, mkJobConfig data catName info nsrc c i)

end SrcmapsCatalogSG

namespace GtSrcmapsCatalog

theorem flatMap_entityEvents_of_lt (l : List Nat) (m : Nat)
    (h : ∀ i ∈ l, m < i) :
    l.flatMap (entityEvents m) =
      l.flatMap fun i => [Event.add i, Event.serialize i, Event.remove i] := by
  induction l with
  | nil => rfl
  | cons i l ih =>
    have hi : i ≠ m := by
      have := h i (List.mem_cons_self i l)
      omega
    simp only [List.flatMap_cons, entityEvents, hi, if_false]
    rw [ih fun j hj => h j (List.mem_cons_of_mem i hj)]
    simp

theorem filterMap_addIdx_triples (l : List Nat) :
    (l.flatMap fun i => [Event.add i, Event.serialize i, Event.remove i]).filterMap
        evtAddIdx = l := by
  induction l with
  | nil => rfl
  | cons i l ih => simp [List.filterMap_cons, evtAddIdx, ih]

theorem gzip_not_mem_loopTrace (l : List Nat) (m : Nat) :
    Event.gzipOut ∉ l.flatMap (entityEvents m) := by
  induction l with
  | nil => simp
  | cons i l ih =>
    intro hmem
    simp only [List.flatMap_cons, List.mem_append, entityEvents] at hmem
    rcases hmem with (h2 | h2) | hmem
    · split at h2 <;> simp_all
    · simp at h2
    · exact ih hmem

theorem ctxInv_flatMap (l : List Nat) (m : Nat) (tail : List Event) :
    ctxInvB [] (l.flatMap (entityEvents m) ++ tail) = ctxInvB [] tail := by
  induction l with
  | nil => simp
  | cons i l ih =>
    by_cases hi : i = m <;>
      simp [List.flatMap_cons, entityEvents, hi, ctxInvB, ctxStep, ih]

/-- C3: for every non-empty index range `[min, max)` the worker's trace is
exactly the artifact initialization (save plus keyword copy) followed, for
each entity index in ascending order, by the block
`add i, serialize i, remove i`; the indices of the `add` events are exactly
`min, min+1, …, max-1`, strictly ascending. -/
theorem c3_worker_interleaving (minIdx maxIdx : Nat) (h : minIdx < maxIdx) :
    loopTrace minIdx (maxIdx : Int) =
      [Event.saveMaps, Event.copyKeywords] ++
        (List.range' minIdx (maxIdx - minIdx)).flatMap
          (fun i => [Event.add i, Event.serialize i, Event.remove i]) ∧
    (loopTrace minIdx (maxIdx : Int)).filterMap evtAddIdx =
      List.range' minIdx (maxIdx - minIdx) ∧
    ((loopTrace minIdx (maxIdx : Int)).filterMap evtAddIdx).Pairwise (· < ·) := by
  have hidx : loopIndices minIdx (maxIdx : Int) =
      List.range' minIdx (maxIdx - minIdx) := by
    simp [loopIndices]
  obtain ⟨k, hk⟩ : ∃ k, maxIdx - minIdx = k + 1 := ⟨maxIdx - minIdx - 1, by omega⟩
  have htrace : loopTrace minIdx (maxIdx : Int) =
      [Event.saveMaps, Event.copyKeywords] ++
        (List.range' minIdx (maxIdx - minIdx)).flatMap
          (fun i => [Event.add i, Event.serialize i, Event.remove i]) := by
    rw [loopTrace, hidx, hk, List.range'_succ, List.flatMap_cons, List.flatMap_cons]
    rw [flatMap_entityEvents_of_lt _ minIdx ?_]
    · simp [entityEvents]
    · intro i hi
      obtain ⟨j, hj, hj2⟩ := List.mem_range'.1 hi
      omega
  have hfilter : (loopTrace minIdx (maxIdx : Int)).filterMap evtAddIdx =
      List.range' minIdx (maxIdx - minIdx) := by
    rw [htrace, List.filterMap_append]
    rw [filterMap_addIdx_triples]
    rfl
  refine ⟨htrace, hfilter, ?_⟩
  rw [hfilter]
  exact List.pairwise_lt_range' minIdx (maxIdx - minIdx)

/-- C3 witness: the range `[0, 3)` yields the exact event sequence of the
spec's scenario for entities `E0, E1, E2`. -/
theorem c3_witness :
    loopTrace 0 (3 : Int) =
      [Event.saveMaps, Event.copyKeywords] ++
        (List.range' 0 (3 - 0)).flatMap
          (fun i => [Event.add i, Event.serialize i, Event.remove i]) ∧
    (loopTrace 0 (3 : Int)).filterMap evtAddIdx = List.range' 0 (3 - 0) ∧
    ((loopTrace 0 (3 : Int)).filterMap evtAddIdx).Pairwise (· < ·) :=
  c3_worker_interleaving 0 3 (by decide)

/-- C4 counterexample: a job with the empty range `[500, 500)` does not
initialize the output artifact at all — the worker's trace is empty, and in
particular contains no `saveSourceMaps` event, contradicting the claim that
the artifact is still created and its header copied. -/
theorem c4_counterexample :
    runAnalysisTrace 500 500 1000 false = [] ∧
      Event.saveMaps ∉ runAnalysisTrace 500 500 1000 false := by
  constructor
  · rfl
  · intro h
    simp only [show runAnalysisTrace 500 500 1000 false = [] from rfl] at h
    exact (List.not_mem_nil _) h

/-- C4 amended: for every job whose index range is empty
(`srcmax = srcmin ≥ 0`) the worker performs no artifact initialization and
adds zero entities; its only observable action is the optional terminal
gzip, and it terminates normally. -/
theorem c4_empty_range (minIdx nSrcNames : Nat) (g : Bool) :
    runAnalysisTrace minIdx (minIdx : Int) nSrcNames g =
      (if g then [Event.gzipOut] else []) := by
  have heff : effMaxIdx (minIdx : Int) nSrcNames = minIdx := by
    simp [effMaxIdx]
  simp [runAnalysisTrace, heff, loopTrace, loopIndices]

/-- C6: the worker's entity-loop upper bound is the catalog's entity count
(`srcNames.size()`) exactly when the supplied `srcmax` is negative, and the
supplied value itself — unchanged, with no clamping to the catalog size —
whenever `srcmax ≥ 0`. -/
theorem c6_srcmax_bound (srcmax : Int) (nSrcNames : Nat) :
    (srcmax < 0 → effMaxIdx srcmax nSrcNames = nSrcNames) ∧
      (0 ≤ srcmax → effMaxIdx srcmax nSrcNames = srcmax) := by
  refine ⟨fun h => ?_, fun h => ?_⟩
  · rw [effMaxIdx, if_pos h]
  · rw [effMaxIdx, if_neg (Int.not_lt.2 h)]

/-- C6 witness: the default `srcmax = -1` gives the catalog size `5`, and a
supplied `srcmax = 7` is used unchanged even though only `5` sources
exist. -/
theorem c6_witness : effMaxIdx (-1) 5 = (5 : Nat) ∧ effMaxIdx 7 5 = 7 :=
  ⟨(c6_srcmax_bound (-1) 5).1 (by decide), (c6_srcmax_bound 7 5).2 (by decide)⟩

/-- C8: the gzip event occurs in the worker's trace exactly when the
`gzip` flag is set, and only as the terminal step, after the whole entity
loop; the entity loop itself never emits it. -/
theorem c8_gzip_terminal (srcmin : Nat) (srcmax : Int) (nSrcNames : Nat)
    (g : Bool) :
    (Event.gzipOut ∈ runAnalysisTrace srcmin srcmax nSrcNames g ↔ g = true) ∧
    runAnalysisTrace srcmin srcmax nSrcNames g =
      loopTrace srcmin (effMaxIdx srcmax nSrcNames) ++
        (if g then [Event.gzipOut] else []) ∧
    Event.gzipOut ∉ loopTrace srcmin (effMaxIdx srcmax nSrcNames) := by
  have hnot : Event.gzipOut ∉ loopTrace srcmin (effMaxIdx srcmax nSrcNames) :=
    gzip_not_mem_loopTrace _ _
  refine ⟨⟨fun hmem => ?_, fun hg => ?_⟩, rfl, hnot⟩
  · rcases List.mem_append.1 hmem with h | h
    · exact absurd h hnot
    · cases g
      · simp at h
      · rfl
  · subst hg
    simp [runAnalysisTrace]

/-- C10: along every worker trace the likelihood context holds at most one
catalog source at any time, every `add` happens on an empty context, the
source added in an iteration is deleted in that same iteration, and the
context is empty again when the run ends. -/
theorem c10_context_occupancy (srcmin : Nat) (srcmax : Int)
    (nSrcNames : Nat) (g : Bool) :
    ctxInvB [] (runAnalysisTrace srcmin srcmax nSrcNames g) = true := by
  rw [runAnalysisTrace, loopTrace, ctxInv_flatMap]
  cases g <;> rfl

end GtSrcmapsCatalog

namespace SrcmapsCatalogSG

theorem pyCeilDiv_natCast (n c : Nat) (hc : 1 ≤ c) :
    pyCeilDiv (n : Int) (c : Int) = ((n + c - 1) / c : Nat) := by
  have hc0 : (0 : Int) < (c : Int) := by exact_mod_cast hc
  rw [pyCeilDiv, if_pos hc0]
  have h1 : ((n : Int) + (c : Int) - 1) = ((n + c - 1 : Nat) : Int) := by
    omega
  rw [h1]
  exact (Int.ofNat_ediv (n + c - 1) c).symm

theorem pyCeilDiv_nonpos_of_neg (n : Nat) (c : Int) (hc : c < 0) :
    pyCeilDiv (n : Int) c ≤ 0 := by
  rw [pyCeilDiv, if_neg (by omega)]
  have h0 : (0 : Int) ≤ (n : Int) / (-c) :=
    Int.ediv_nonneg (Int.natCast_nonneg n) (by omega)
  omega

theorem jobRanges_eq_partitionN (n c : Nat) (hc : 1 ≤ c) :
    jobRangesChecked n (c : Int) =
      Except.ok ((partitionN n c).map fun p => ((p.1 : Int), (p.2 : Int))) := by
  have hne : (c : Int) ≠ 0 := by
    have : c ≠ 0 := by omega
    exact_mod_cast this
  rw [jobRangesChecked, nJobChecked, if_neg hne, pyCeilDiv_natCast n c hc]
  simp only [Except.map, Int.toNat_ofNat, partitionN, List.map_map]
  congr 1
  apply List.map_congr_left
  intro i hi
  simp only [srcRange, Function.comp_apply, Prod.mk.injEq]
  constructor
  · push_cast
    ring
  · push_cast
    ring_nf

theorem insertCatalogJobs_zero (data : String) (comps : List Component)
    (catName : String) (info : CatalogInfo) (nsrc : Int)
    (t : List (String × JobConfig)) :
    insertCatalogJobs data comps catName info nsrc 0 t = t := by
  induction comps generalizing t with
  | nil => rfl
  | cons a l ih =>
    simp only [insertCatalogJobs, List.foldl_cons, List.range_zero,
      List.foldl_nil] at ih ⊢
    exact ih t

/-- C1: for every catalog size `n ≥ 0` and chunk size `c ≥ 1`, the
partitioning performed by `build_job_configs` succeeds and produces the
ranges of `partitionN n c`: exactly `⌈n / c⌉ = (n + c - 1) / c` ranges,
range `i` being `[i*c, min ((i+1)*c) n)`; they are pairwise disjoint, in
ascending order, and their union is exactly `[0, n)`; in particular `n = 0`
gives zero ranges and an empty job table for that catalog, with no error. -/
theorem c1_partitioning (n c : Nat) (hc : 1 ≤ c) :
    jobRangesChecked n (c : Int) =
      Except.ok ((partitionN n c).map fun p => ((p.1 : Int), (p.2 : Int))) ∧
    (partitionN n c).length = (n + c - 1) / c ∧
    (∀ i (hi : i < (partitionN n c).length),
      (partitionN n c).get ⟨i, hi⟩ = (i * c, min ((i + 1) * c) n)) ∧
    (∀ i j (hi : i < (partitionN n c).length) (hj : j < (partitionN n c).length),
      i < j → ((partitionN n c).get ⟨i, hi⟩).2 ≤ ((partitionN n c).get ⟨j, hj⟩).1) ∧
    (∀ k, k < n ↔ ∃ p ∈ partitionN n c, p.1 ≤ k ∧ k < p.2) ∧
    (n = 0 → partitionN n c = [] ∧ jobRangesChecked n (c : Int) = Except.ok []) ∧
    (∀ (data : String) (comps : List Component) (catName : String)
        (info : CatalogInfo), info.nSrc = 0 →
      buildTable data comps [(catName, info)] (c : Int) = Except.ok []) := by
  have hget : ∀ i (hi : i < (partitionN n c).length),
      (partitionN n c).get ⟨i, hi⟩ = (i * c, min ((i + 1) * c) n) := by
    intro i hi
    simp [partitionN]
  have hzero : n = 0 → partitionN n c = [] := by
    intro h
    subst h
    rw [partitionN, Nat.div_eq_of_lt (show 0 + c - 1 < c by omega)]
    rfl
  refine ⟨jobRanges_eq_partitionN n c hc, by simp [partitionN], hget, ?_, ?_, ?_, ?_⟩
  · intro i j hi hj hij
    rw [hget i hi, hget j hj]
    calc min ((i + 1) * c) n ≤ (i + 1) * c := min_le_left _ _
      _ ≤ j * c := Nat.mul_le_mul_right c (by omega)
  · intro k
    constructor
    · intro hk
      refine ⟨(k / c * c, min ((k / c + 1) * c) n), ?_, ?_, ?_⟩
      · rw [partitionN]
        apply List.mem_map.2
        refine ⟨k / c, List.mem_range.2 ?_, rfl⟩
        have hn1 : n + c - 1 = (n - 1) + c := by omega
        rw [hn1, Nat.add_div_right _ (show 0 < c by omega)]
        have h3 : k / c ≤ (n - 1) / c := Nat.div_le_div_right (by omega)
        omega
      · exact Nat.div_mul_le_self k c
      · have h1 := Nat.div_add_mod k c
        have h2 := Nat.mod_lt k (show 0 < c by omega)
        have h3 : (k / c + 1) * c = c * (k / c) + c := by ring
        omega
    · rintro ⟨p, hp, hp1, hp2⟩
      rw [partitionN] at hp
      obtain ⟨i, hi, rfl⟩ := List.mem_map.1 hp
      have := min_le_right ((i + 1) * c) n
      simp only at hp2
      omega
  · intro h
    refine ⟨hzero h, ?_⟩
    rw [jobRanges_eq_partitionN n c hc, hzero h]
    rfl
  · intro data comps catName info hinfo
    have hne : (c : Int) ≠ 0 := by
      have : c ≠ 0 := by omega
      exact_mod_cast this
    have hjob : nJobChecked info.nSrc (c : Int) = Except.ok 0 := by
      rw [nJobChecked, if_neg hne, hinfo]
      rw [pyCeilDiv_natCast 0 c hc, Nat.div_eq_of_lt (show 0 + c - 1 < c by omega)]
      rfl
    simp only [buildTable, List.foldlM, hjob]
    show Except.ok (insertCatalogJobs data comps catName info (c : Int) ((0 : Int)).toNat []) = _
    rw [show ((0 : Int)).toNat = 0 from rfl, insertCatalogJobs_zero]

/-- C5 amended: partitioning with `chunkSize = 0` fails (with a
`ZeroDivisionError`, uncaught, so the whole generation aborts whenever at
least one catalog is present), but a strictly negative `chunkSize` does not
fail at all: it silently yields zero ranges for every catalog size. -/
theorem c5_amended (n : Nat) (c : Int) :
    (c = 0 → jobRangesChecked n c = Except.error zeroDivMsg) ∧
    (c < 0 → jobRangesChecked n c = Except.ok []) ∧
    (∀ (data : String) (comps : List Component) (catName : String)
        (info : CatalogInfo) (rest : List (String × CatalogInfo)),
      c = 0 →
        buildTable data comps ((catName, info) :: rest) c =
          Except.error zeroDivMsg) := by
  refine ⟨fun h => ?_, fun h => ?_, fun data comps catName info rest h => ?_⟩
  · subst h
    rfl
  · have h0 : pyCeilDiv (n : Int) c ≤ 0 := pyCeilDiv_nonpos_of_neg n c h
    have hne : c ≠ 0 := by omega
    have ht : (pyCeilDiv (n : Int) c).toNat = 0 := by omega
    rw [jobRangesChecked, nJobChecked, if_neg hne]
    show Except.ok (List.map (srcRange n c) (List.range (pyCeilDiv (n : Int) c).toNat)) = _
    rw [ht]
    rfl
  · subst h
    rfl

/-- C5 witness: at `n = 5` the chunk size `0` raises and `-3` silently
yields no ranges. -/
theorem c5_witness :
    jobRangesChecked 5 0 = Except.error zeroDivMsg ∧
      jobRangesChecked 5 (-3) = Except.ok [] :=
  ⟨(c5_amended 5 0).1 rfl, (c5_amended 5 (-3)).2.1 (by decide)⟩

/-- C5 counterexample: with `chunkSize = -1 ≤ 0` and a five-source catalog
the whole generation succeeds (returning an empty table) instead of failing
with an `InvalidArgument` error, refuting the claim for negative chunk
sizes. -/
theorem c5_counterexample :
    buildTable "d" [⟨105, "E0", "PSF3", "GAL", 3⟩]
        [("cat", ⟨5, "cat.xml", 5⟩)] (-1) = Except.ok [] ∧
      jobRangesChecked 5 (-1) = Except.ok [] := by
  constructor
  · rfl
  · rfl

/-- C7: job-config generation is deterministic — two runs of
`build_job_configs` with identical arguments (components, naming state,
catalog and component info, chunk size, xml flag) produce identical results,
hence identical job tables with byte-identical path strings in every
descriptor.  The embedding is a pure function of `SGArgs`, which models the
whole of the generator's input including the `NAME_FACTORY` state set from
`args['data']`. -/
theorem c7_deterministic (a b : SGArgs) (h : a = b) :
    buildJobConfigs a = buildJobConfigs b := by
  rw [h]

/-- C7 witness: two runs at one concrete argument record agree. -/
theorem c7_witness :
    buildJobConfigs ⟨[⟨105, "E0", "PSF3", "GAL", 3⟩], "d",
        [("cat", ⟨5, "cat.xml", 5⟩)], [], 2, false⟩ =
      buildJobConfigs ⟨[⟨105, "E0", "PSF3", "GAL", 3⟩], "d",
        [("cat", ⟨5, "cat.xml", 5⟩)], [], 2, false⟩ :=
  c7_deterministic _ _ rfl

/-- C9: the `make_xml` flag only adds the `_make_xml_files` file-writing
side effects (the first component of the result); the job table (the second
component) is identical whether the flag is set or not, for every input. -/
theorem c9_make_xml_frame (comps : List Component) (data : String)
    (cats : List (String × CatalogInfo)) (cis : List (String × List CompInfo))
    (nsrc : Int) :
    (buildJobConfigs ⟨comps, data, cats, cis, nsrc, true⟩).map Prod.snd =
      (buildJobConfigs ⟨comps, data, cats, cis, nsrc, false⟩).map Prod.snd := by
  simp only [buildJobConfigs]
  cases h : buildTable data comps cats nsrc <;> rfl

end SrcmapsCatalogSG

namespace SrcmapsCatalogSG

theorem sep_split : ∀ {a b d e : List Char}, '_' ∉ d → '_' ∉ e →
    a ++ '_' :: d = b ++ '_' :: e → a = b ∧ d = e := by
  intro a
  induction a with
  | nil =>
    intro b d e hd he h
    cases b with
    | nil =>
      simp only [List.nil_append, List.cons.injEq] at h
      exact ⟨rfl, h.2⟩
    | cons x b' =>
      simp only [List.nil_append, List.cons_append, List.cons.injEq] at h
      exact absurd (h.2 ▸ List.mem_append_right b' (List.mem_cons_self _ _)) hd
  | cons x a' ih =>
    intro b d e hd he h
    cases b with
    | nil =>
      simp only [List.nil_append, List.cons_append, List.cons.injEq] at h
      exact absurd (h.2 ▸ List.mem_append_right a' (List.mem_cons_self _ _)) he
    | cons y b' =>
      simp only [List.cons_append, List.cons.injEq] at h
      obtain ⟨rfl, h2⟩ := h
      obtain ⟨h3, h4⟩ := ih hd he h2
      exact ⟨by rw [h3], h4⟩

theorem underscore_append_inj (a b x y : String)
    (hx : '_' ∉ x.data) (hy : '_' ∉ y.data)
    (h : a ++ "_" ++ x = b ++ "_" ++ y) : a = b ∧ x = y := by
  have hd : a.data ++ '_' :: x.data = b.data ++ '_' :: y.data := by
    have h2 := congrArg String.data h
    simp only [String.data_append] at h2
    simpa [List.append_assoc] using h2
  obtain ⟨h1, h2⟩ := sep_split hx hy hd
  exact ⟨String.ext h1, String.ext h2⟩

theorem fmt02_no_underscore : ∀ i, i < 100 → '_' ∉ (fmt02 i).data := by decide

set_option maxRecDepth 4000 in
theorem fmt02_inj_lt100 : ∀ i, i < 100 → ∀ j, j < 100 → fmt02 i = fmt02 j → i = j := by
  decide


theorem fullKey_inj (a b : Component) (i j : Nat) (hi : i < 100) (hj : j < 100)
    (h : fullKey a i = fullKey b j) : compKey a = compKey b ∧ i = j := by
  obtain ⟨h1, h2⟩ := underscore_append_inj (compKey a) (compKey b) (fmt02 i) (fmt02 j)
    (fmt02_no_underscore i hi) (fmt02_no_underscore j hj) h
  exact ⟨h1, fmt02_inj_lt100 i hi j hj h2⟩

theorem fits_no_underscore : '_' ∉ (".fits" : String).data := by decide

theorem outfilePath_inj (data : String) (k k2 : NameKeys) (i j : Nat)
    (hi : i < 100) (hj : j < 100)
    (h : outfilePath data k i = outfilePath data k2 j) :
    nfBase data k = nfBase data k2 ∧ i = j := by
  have hd : ("srcmaps_" ++ nfBase data k).data ++
        '_' :: ((fmt02 i).data ++ (".fits" : String).data) =
      ("srcmaps_" ++ nfBase data k2).data ++
        '_' :: ((fmt02 j).data ++ (".fits" : String).data) := by
    have h2 := congrArg String.data h
    simp only [outfilePath, String.data_append] at h2
    simpa [List.append_assoc] using h2
  have hno : ∀ m, m < 100 → '_' ∉ ((fmt02 m).data ++ (".fits" : String).data) := by
    intro m hm hmem
    rcases List.mem_append.1 hmem with h3 | h3
    · exact fmt02_no_underscore m hm h3
    · exact fits_no_underscore h3
  obtain ⟨h1, h2⟩ := sep_split (hno i hi) (hno j hj) hd
  refine ⟨?_, ?_⟩
  · have h3 := (List.append_inj h1 rfl).2
    exact String.ext h3
  · have h4 := (List.append_inj' h2 rfl).1
    exact fmt02_inj_lt100 i hi j hj (String.ext h4)

theorem dictInsert_of_fresh (k : String) (v : JobConfig) :
    ∀ (t : List (String × JobConfig)), (∀ p ∈ t, p.1 ≠ k) →
      dictInsert k v t = t ++ [(k, v)] := by
  intro t
  induction t with
  | nil => intro _; rfl
  | cons p rest ih =>
    intro h
    rw [dictInsert, if_neg (h p (List.mem_cons_self _ _)), ih]
    · rfl
    · intro q hq
      exact h q (List.mem_cons_of_mem _ hq)

theorem foldl_dictInsert_fresh :
    ∀ (ps : List (String × JobConfig)) (t : List (String × JobConfig)),
      (∀ p ∈ ps, ∀ q ∈ t, q.1 ≠ p.1) →
      ((ps.map Prod.fst).Pairwise (· ≠ ·)) →
      ps.foldl (fun t2 p => dictInsert p.1 p.2 t2) t = t ++ ps := by
  intro ps
  induction ps with
  | nil =>
    intro t _ _
    simp
  | cons p ps ih =>
    intro t hfresh hpw
    rw [List.foldl_cons,
      dictInsert_of_fresh _ _ _ (fun q hq => hfresh p (List.mem_cons_self _ _) q hq)]
    rw [List.map_cons, List.pairwise_cons] at hpw
    rw [ih (t ++ [p]) ?_ hpw.2]
    · simp
    · intro p2 hp2 q hq
      rcases List.mem_append.1 hq with h3 | h3
      · exact hfresh p2 (List.mem_cons_of_mem _ hp2) q h3
      · have : q = p := by simpa using h3
        subst this
        exact hpw.1 p2.1 (List.mem_map_of_mem Prod.fst hp2)


theorem insertCatalogJobs_eq_foldl (data : String) (comps : List Component)
    (catName : String) (info : CatalogInfo) (nsrc : Int) (nJob : Nat) :
    ∀ t, insertCatalogJobs data comps catName info nsrc nJob t =
      (catalogEntries data catName info nsrc nJob comps).foldl
        (fun t2 p => dictInsert p.1 p.2 t2) t := by
  induction comps with
  | nil => intro t; rfl
  | cons c cs ih =>
    intro t
    simp only [insertCatalogJobs, List.foldl_cons, catalogEntries,
      List.flatMap_cons, List.foldl_append] at ih ⊢
    rw [List.foldl_map]
    exact ih _

theorem catalogEntries_length (data catName : String) (info : CatalogInfo)
    (nsrc : Int) (nJob : Nat) (comps : List Component) :
    (catalogEntries data catName info nsrc nJob comps).length =
      comps.length * nJob := by
  induction comps with
  | nil => simp [catalogEntries]
  | cons c cs ih =>
    simp only [catalogEntries, List.flatMap_cons, List.length_append,
      List.length_map, List.length_range, List.length_cons, Nat.succ_mul] at ih ⊢
    omega

theorem catalogEntries_keys_pairwise (data catName : String)
    (info : CatalogInfo) (nsrc : Int) (nJob : Nat) (comps : List Component)
    (hn : nJob ≤ 100)
    (hk : comps.Pairwise (fun a b => compKey a ≠ compKey b)) :
    ((catalogEntries data catName info nsrc nJob comps).map Prod.fst).Pairwise
      (· ≠ ·) := by
  have hform : (catalogEntries data catName info nsrc nJob comps).map Prod.fst =
      comps.flatMap fun c => (List.range nJob).map fun i => fullKey c i := by
    rw [catalogEntries, List.map_flatMap]
    simp only [List.map_map]
    rfl
  rw [hform, List.pairwise_flatMap]
  constructor
  · intro c _
    rw [List.pairwise_map]
    apply (List.pairwise_lt_range nJob).imp_of_mem
    intro i j hi hj hij heq
    have hi2 : i < 100 := by have := List.mem_range.1 hi; omega
    have hj2 : j < 100 := by have := List.mem_range.1 hj; omega
    have := (fullKey_inj c c i j hi2 hj2 heq).2
    omega
  · apply hk.imp_of_mem
    intro a b _ _ hab x hx y hy heq
    simp only [List.mem_map, List.mem_range] at hx hy
    obtain ⟨i, hi, rfl⟩ := hx
    obtain ⟨j, hj, rfl⟩ := hy
    exact hab (fullKey_inj a b i j (by omega) (by omega) heq).1

theorem catalogEntries_outfiles_pairwise (data catName : String)
    (info : CatalogInfo) (nsrc : Int) (nJob : Nat) (comps : List Component)
    (hn : nJob ≤ 100)
    (hb : comps.Pairwise (fun a b =>
      nfBase data (nameKeysFor data catName a) ≠
        nfBase data (nameKeysFor data catName b))) :
    ((catalogEntries data catName info nsrc nJob comps).map
        (fun p => p.2.outfile)).Pairwise (· ≠ ·) := by
  have hform : (catalogEntries data catName info nsrc nJob comps).map
        (fun p => p.2.outfile) =
      comps.flatMap fun c => (List.range nJob).map fun i =>
        outfilePath data (nameKeysFor data catName c) i := by
    rw [catalogEntries, List.map_flatMap]
    simp only [List.map_map]
    rfl
  rw [hform, List.pairwise_flatMap]
  constructor
  · intro c _
    rw [List.pairwise_map]
    apply (List.pairwise_lt_range nJob).imp_of_mem
    intro i j hi hj hij heq
    have hi2 : i < 100 := by have := List.mem_range.1 hi; omega
    have hj2 : j < 100 := by have := List.mem_range.1 hj; omega
    have := (outfilePath_inj data _ _ i j hi2 hj2 heq).2
    omega
  · apply hb.imp_of_mem
    intro a b _ _ hab x hx y hy heq
    simp only [List.mem_map, List.mem_range] at hx hy
    obtain ⟨i, hi, rfl⟩ := hx
    obtain ⟨j, hj, rfl⟩ := hy
    exact hab (outfilePath_inj data _ _ i j (by omega) (by omega) heq).1


theorem buildTable_single (data : String) (comps : List Component)
    (catName : String) (info : CatalogInfo) (nsrc : Int) (hne : nsrc ≠ 0) :
    buildTable data comps [(catName, info)] nsrc =
      Except.ok (insertCatalogJobs data comps catName info nsrc
        (pyCeilDiv info.nSrc nsrc).toNat []) := by
  rw [buildTable]
  simp only [List.foldlM_cons, List.foldlM_nil, nJobChecked, if_neg hne]
  rfl

/-- C2 amended: the composite key is built from the bin identity and the
range index only — the catalog identity is not part of it — so entries of
distinct catalogs that share a bin collide and overwrite each other.  For a
generation over a single catalog, with components whose keys and whose
resolved path stems are pairwise distinct and at most 100 chunks (the
two-digit `%02i` regime), every (bin, range-index) combination contributes
its own entry: the table is exactly one entry per combination, its keys are
pairwise distinct, and its output paths are pairwise distinct. -/
theorem c2_amended (data catName : String) (info : CatalogInfo) (nsrc : Int)
    (comps : List Component) (hnz : nsrc ≠ 0)
    (h100 : (pyCeilDiv (info.nSrc : Int) nsrc).toNat ≤ 100)
    (hk : comps.Pairwise (fun a b => compKey a ≠ compKey b))
    (hb : comps.Pairwise (fun a b =>
      nfBase data (nameKeysFor data catName a) ≠
        nfBase data (nameKeysFor data catName b))) :
    buildTable data comps [(catName, info)] nsrc =
      Except.ok (catalogEntries data catName info nsrc
        (pyCeilDiv (info.nSrc : Int) nsrc).toNat comps) ∧
    (catalogEntries data catName info nsrc
        (pyCeilDiv (info.nSrc : Int) nsrc).toNat comps).length =
      comps.length * (pyCeilDiv (info.nSrc : Int) nsrc).toNat ∧
    ((catalogEntries data catName info nsrc
        (pyCeilDiv (info.nSrc : Int) nsrc).toNat comps).map Prod.fst).Pairwise
      (· ≠ ·) ∧
    ((catalogEntries data catName info nsrc
        (pyCeilDiv (info.nSrc : Int) nsrc).toNat comps).map
        (fun p => p.2.outfile)).Pairwise (· ≠ ·) := by
  set nJob := (pyCeilDiv (info.nSrc : Int) nsrc).toNat with hnJ
  have hkeys := catalogEntries_keys_pairwise data catName info nsrc nJob comps h100 hk
  refine ⟨?_, catalogEntries_length data catName info nsrc nJob comps, hkeys,
    catalogEntries_outfiles_pairwise data catName info nsrc nJob comps h100 hb⟩
  rw [buildTable_single data comps catName info nsrc hnz,
    insertCatalogJobs_eq_foldl]
  rw [foldl_dictInsert_fresh _ [] (by intro p _ q hq; exact absurd hq (List.not_mem_nil q)) hkeys]
  rfl

/-- C2 counterexample: two catalogs `catA`, `catB` sharing one bin produce
a table with a single entry — the key omits the catalog identity, so
`catB`'s entry overwrites `catA`'s, whose (catalog, bin, range-index)
combination therefore has no entry of its own in the table. -/
theorem c2_counterexample :
    buildTable "d" [⟨105, "E0", "PSF3", "GAL", 3⟩]
        [("catA", ⟨1, "catA.xml", 1⟩), ("catB", ⟨1, "catB.xml", 1⟩)] 500 =
      Except.ok [(fullKey ⟨105, "E0", "PSF3", "GAL", 3⟩ 0,
        mkJobConfig "d" "catB" ⟨1, "catB.xml", 1⟩ 500 ⟨105, "E0", "PSF3", "GAL", 3⟩ 0)] ∧
    (fullKey ⟨105, "E0", "PSF3", "GAL", 3⟩ 0,
        mkJobConfig "d" "catA" ⟨1, "catA.xml", 1⟩ 500 ⟨105, "E0", "PSF3", "GAL", 3⟩ 0) ∉
      [(fullKey ⟨105, "E0", "PSF3", "GAL", 3⟩ 0,
        mkJobConfig "d" "catB" ⟨1, "catB.xml", 1⟩ 500 ⟨105, "E0", "PSF3", "GAL", 3⟩ 0)] := by
  constructor
  · rfl
  · decide

end SrcmapsCatalogSG

namespace SrcmapsCatalogSG

/-- C1 witness: the partitioning properties at `n = 5`, `c = 2`. -/
theorem c1_witness :
    1 ≤ 2 ∧
    (jobRangesChecked 5 (2 : Int) =
        Except.ok ((partitionN 5 2).map fun p => ((p.1 : Int), (p.2 : Int))) ∧
      (partitionN 5 2).length = (5 + 2 - 1) / 2 ∧
      (∀ i (hi : i < (partitionN 5 2).length),
        (partitionN 5 2).get ⟨i, hi⟩ = (i * 2, min ((i + 1) * 2) 5)) ∧
      (∀ i j (hi : i < (partitionN 5 2).length)
          (hj : j < (partitionN 5 2).length),
        i < j →
          ((partitionN 5 2).get ⟨i, hi⟩).2 ≤ ((partitionN 5 2).get ⟨j, hj⟩).1) ∧
      (∀ k, k < 5 ↔ ∃ p ∈ partitionN 5 2, p.1 ≤ k ∧ k < p.2) ∧
      (5 = 0 → partitionN 5 2 = [] ∧ jobRangesChecked 5 (2 : Int) = Except.ok []) ∧
      (∀ (data : String) (comps : List Component) (catName : String)
          (info : CatalogInfo), info.nSrc = 0 →
        buildTable data comps [(catName, info)] (2 : Int) = Except.ok [])) :=
  ⟨by decide, c1_partitioning 5 2 (by decide)⟩

/-- C2 witness: the spec scenario — 1200 sources, chunk 500, two bins —
yields six entries with pairwise distinct keys and output paths. -/
theorem c2_witness :
    buildTable "d" [⟨105, "E0", "PSF0", "GAL", 4⟩, ⟨105, "E1", "PSF1", "GAL", 8⟩]
        [("cat", ⟨1200, "cat.xml", 1200⟩)] 500 =
      Except.ok (catalogEntries "d" "cat" ⟨1200, "cat.xml", 1200⟩ 500
        (pyCeilDiv (1200 : Int) 500).toNat
        [⟨105, "E0", "PSF0", "GAL", 4⟩, ⟨105, "E1", "PSF1", "GAL", 8⟩]) ∧
    (catalogEntries "d" "cat" ⟨1200, "cat.xml", 1200⟩ 500
        (pyCeilDiv (1200 : Int) 500).toNat
        [⟨105, "E0", "PSF0", "GAL", 4⟩, ⟨105, "E1", "PSF1", "GAL", 8⟩]).length =
      2 * (pyCeilDiv (1200 : Int) 500).toNat ∧
    ((catalogEntries "d" "cat" ⟨1200, "cat.xml", 1200⟩ 500
        (pyCeilDiv (1200 : Int) 500).toNat
        [⟨105, "E0", "PSF0", "GAL", 4⟩, ⟨105, "E1", "PSF1", "GAL", 8⟩]).map
        Prod.fst).Pairwise (· ≠ ·) ∧
    ((catalogEntries "d" "cat" ⟨1200, "cat.xml", 1200⟩ 500
        (pyCeilDiv (1200 : Int) 500).toNat
        [⟨105, "E0", "PSF0", "GAL", 4⟩, ⟨105, "E1", "PSF1", "GAL", 8⟩]).map
        (fun p => p.2.outfile)).Pairwise (· ≠ ·) :=
  c2_amended "d" "cat" ⟨1200, "cat.xml", 1200⟩ 500
    [⟨105, "E0", "PSF0", "GAL", 4⟩, ⟨105, "E1", "PSF1", "GAL", 8⟩]
    (by decide) (by decide) (by decide) (by decide)

end SrcmapsCatalogSG

namespace GtSrcmapsCatalog

/-- C8 witness: the gzip flag set on a concrete run puts the gzip event at
the end of the trace. -/
theorem c8_witness :
    (Event.gzipOut ∈ runAnalysisTrace 0 3 10 true ↔ true = true) ∧
    runAnalysisTrace 0 3 10 true =
      loopTrace 0 (effMaxIdx 3 10) ++ (if true then [Event.gzipOut] else []) ∧
    Event.gzipOut ∉ loopTrace 0 (effMaxIdx 3 10) :=
  c8_gzip_terminal 0 3 10 true

end GtSrcmapsCatalog
